import Mathlib

/-!
Shallow embedding of `tap_exchangeratesapi/__init__.py` (a Singer tap that
replicates daily exchange rates).  Python dictionaries are modelled as
association lists with insertion-order overwrite semantics, JSON scalar
values as the inductive `JVal`, calendar dates inside the sync loop as day
numbers (`Nat`) — the code parses and re-serialises `YYYY-MM-DD` strings
with a fixed format, and on canonical date strings that round trip is a
bijection onto day numbers — and the provider plus the system clock as
explicit oracle parameters.  Emission of Singer messages is modelled as an
ordered output list.
-/

namespace TapER

/-- A JSON scalar value as it appears in rate dictionaries: a number or a
string.  (No arithmetic is ever performed on rate values; they are only
stored and compared, so `ℚ` stands in for the float payloads.) -/
inductive JVal where
  | num (q : ℚ)
  | str (s : String)
deriving DecidableEq, Repr

/-- Fields of a Python dict, in insertion order. -/
abbrev Dict := List (String × JVal)

/-- The key list of a dict, in order. -/
def dkeys (d : Dict) : List String := d.map Prod.fst

/-- Python dict item assignment `d[k] = v`: overwrite the (unique) existing
binding in place, keeping its position, or append a new binding at the end —
exactly the CPython dict update rule, on an association list whose keys are
kept nodup. -/
def dset : Dict → String → JVal → Dict
  | [], k, v => [(k, v)]
  | p :: t, k, v => if p.1 = k then (k, v) :: t else p :: dset t k v

/-- Python dict lookup `d[k]` (first binding wins; on a nodup-key dict the
binding is unique). -/
def dget (d : Dict) (k : String) : Option JVal :=
  (d.find? (fun p => p.1 = k)).map Prod.snd

theorem dkeys_cons (p : String × JVal) (t : Dict) :
    dkeys (p :: t) = p.1 :: dkeys t := rfl

theorem dkeys_dset (d : Dict) (k : String) (v : JVal) :
    dkeys (dset d k v) = if k ∈ dkeys d then dkeys d else dkeys d ++ [k] := by
  induction d with
  | nil => simp [dset, dkeys]
  | cons p t ih =>
    by_cases hp : p.1 = k
    · simp [dset, hp, dkeys_cons]
    · have hne : ¬ k = p.1 := fun h => hp h.symm
      rw [show dset (p :: t) k v = p :: dset t k v by simp [dset, hp]]
      rw [dkeys_cons, dkeys_cons, ih]
      by_cases ht : k ∈ dkeys t
      · simp [ht, hne]
      · simp [ht, hne]

theorem dkeys_dset_nodup (d : Dict) (k : String) (v : JVal)
    (h : (dkeys d).Nodup) : (dkeys (dset d k v)).Nodup := by
  rw [dkeys_dset]
  by_cases hk : k ∈ dkeys d
  · simpa [hk] using h
  · simp only [hk, if_false]
    simpa [List.nodup_append] using ⟨h, hk⟩

theorem mem_dkeys_dset (d : Dict) (k k' : String) (v : JVal) :
    k' ∈ dkeys (dset d k v) ↔ k' ∈ dkeys d ∨ k' = k := by
  rw [dkeys_dset]
  by_cases hk : k ∈ dkeys d
  · simp only [hk, if_true]
    constructor
    · exact Or.inl
    · rintro (h | rfl)
      · exact h
      · exact hk
  · simp [hk]

theorem dget_dset_self (d : Dict) (k : String) (v : JVal) :
    dget (dset d k v) k = some v := by
  induction d with
  | nil => simp [dset, dget, List.find?]
  | cons p t ih =>
    by_cases hp : p.1 = k
    · simp [dset, dget, List.find?, hp]
    · simpa [dset, dget, List.find?, hp] using ih

theorem dget_dset_ne (d : Dict) (k k' : String) (v : JVal) (hne : k' ≠ k) :
    dget (dset d k v) k' = dget d k' := by
  induction d with
  | nil => simp [dset, dget, List.find?, Ne.symm hne]
  | cons p t ih =>
    by_cases hp : p.1 = k
    · simp [dset, dget, List.find?, hp, Ne.symm hne, hne]
    · by_cases hp' : p.1 = k'
      · simp [dset, dget, List.find?, hp, hp', hne]
      · simpa [dset, dget, List.find?, hp, hp'] using ih

/-- Numeric value of a digit character. -/
def dval (c : Char) : Nat := c.toNat - 48

/-- `time.strptime(s, '%Y-%m-%d')` on the canonical ten-character
`YYYY-MM-DD` form produced by the provider and written by the date walker:
four digit year, dash, two digit month in 1..12, dash, two digit day in
1..31 (the ranges strptime checks), yielding the (year, month, day) fields
of the resulting struct_time, whose time-of-day fields are all zero.
`none` models the ValueError raised on a non-matching string. -/
def strptimeD (s : String) : Option (Nat × Nat × Nat) :=
  match s.data with
  | [y1, y2, y3, y4, c1, m1, m2, c2, d1, d2] =>
    if y1.isDigit && y2.isDigit && y3.isDigit && y4.isDigit &&
       m1.isDigit && m2.isDigit && d1.isDigit && d2.isDigit &&
       c1 == '-' && c2 == '-' then
      if 1 ≤ dval m1 * 10 + dval m2 && dval m1 * 10 + dval m2 ≤ 12 &&
         1 ≤ dval d1 * 10 + dval d2 && dval d1 * 10 + dval d2 ≤ 31 then
        some (((dval y1 * 10 + dval y2) * 10 + dval y3) * 10 + dval y4,
              dval m1 * 10 + dval m2, dval d1 * 10 + dval d2)
      else none
    else none
  | _ => none

/-- Two-digit zero-padded decimal rendering (strftime `%m`, `%d`). -/
def pad2 (n : Nat) : List Char :=
  [Nat.digitChar (n / 10 % 10), Nat.digitChar (n % 10)]

/-- Four-digit zero-padded decimal rendering (strftime `%Y`). -/
def pad4 (n : Nat) : List Char :=
  [Nat.digitChar (n / 1000 % 10), Nat.digitChar (n / 100 % 10),
   Nat.digitChar (n / 10 % 10), Nat.digitChar (n % 10)]

/-- `time.strftime('%Y-%m-%dT%H:%M:%SZ', t)` for a struct_time produced by
`strptimeD` (all time-of-day fields zero): zero-padded year, month and day
followed by the constant `T00:00:00Z` time part. -/
def strftimeTS (t : Nat × Nat × Nat) : String :=
  ⟨pad4 t.1 ++ '-' :: pad2 t.2.1 ++ '-' :: pad2 t.2.2 ++ "T00:00:00Z".data⟩

theorem dval_lt (c : Char) (h : c.isDigit = true) : dval c < 10 := by
  have hb : 48 ≤ c.toNat ∧ c.toNat ≤ 57 := by
    simp [Char.isDigit] at h
    exact ⟨h.1, h.2⟩
  unfold dval
  omega

theorem digitChar_dval (c : Char) (h : c.isDigit = true) :
    Nat.digitChar (dval c) = c := by
  have hb : 48 ≤ c.toNat ∧ c.toNat ≤ 57 := by
    simp [Char.isDigit] at h
    exact ⟨h.1, h.2⟩
  have hc : Char.ofNat c.toNat = c := Char.ofNat_toNat c
  obtain ⟨n, hn⟩ : ∃ n, c.toNat = n := ⟨_, rfl⟩
  rw [hn] at hb hc
  rw [dval, hn, ← hc]
  obtain ⟨h1, h2⟩ := hb
  interval_cases n <;> decide

theorem pad2_eq (a b : Char) (ha : a.isDigit = true) (hb : b.isDigit = true) :
    pad2 (dval a * 10 + dval b) = [a, b] := by
  have la := dval_lt a ha
  have lb := dval_lt b hb
  have h1 : (dval a * 10 + dval b) / 10 % 10 = dval a := by omega
  have h2 : (dval a * 10 + dval b) % 10 = dval b := by omega
  rw [pad2, h1, h2, digitChar_dval a ha, digitChar_dval b hb]

theorem pad4_eq (a b c d : Char) (ha : a.isDigit = true) (hb : b.isDigit = true)
    (hc : c.isDigit = true) (hd : d.isDigit = true) :
    pad4 (((dval a * 10 + dval b) * 10 + dval c) * 10 + dval d) = [a, b, c, d] := by
  have la := dval_lt a ha
  have lb := dval_lt b hb
  have lc := dval_lt c hc
  have ld := dval_lt d hd
  have h1 : (((dval a * 10 + dval b) * 10 + dval c) * 10 + dval d) / 1000 % 10 = dval a := by
    omega
  have h2 : (((dval a * 10 + dval b) * 10 + dval c) * 10 + dval d) / 100 % 10 = dval b := by
    omega
  have h3 : (((dval a * 10 + dval b) * 10 + dval c) * 10 + dval d) / 10 % 10 = dval c := by
    omega
  have h4 : (((dval a * 10 + dval b) * 10 + dval c) * 10 + dval d) % 10 = dval d := by
    omega
  rw [pad4, h1, h2, h3, h4, digitChar_dval a ha, digitChar_dval b hb,
    digitChar_dval c hc, digitChar_dval d hd]

/-- strftime applied to a successful strptime of a canonical date string
reproduces the string, with the constant zero time part appended. -/
theorem strftime_strptime_roundtrip (s : String) (t : Nat × Nat × Nat)
    (h : strptimeD s = some t) : strftimeTS t = s ++ "T00:00:00Z" := by
  unfold strptimeD at h
  split at h
  next y1 y2 y3 y4 c1 m1 m2 c2 d1 d2 heq =>
    split at h
    next hdig =>
      split at h
      next hrng =>
        simp only [Option.some.injEq] at h
        simp only [Bool.and_eq_true, beq_iff_eq] at hdig
        obtain ⟨⟨⟨⟨⟨⟨⟨⟨⟨hy1, hy2⟩, hy3⟩, hy4⟩, hm1⟩, hm2⟩, hd1⟩, hd2⟩, hc1⟩, hc2⟩ := hdig
        have hs : s = ⟨[y1, y2, y3, y4, c1, m1, m2, c2, d1, d2]⟩ := by
          conv_lhs => rw [show s = ⟨s.data⟩ from rfl]
          rw [heq]
        subst hc1
        subst hc2
        rw [hs, ← h, strftimeTS]
        show String.mk _ = String.mk _
        rw [pad4_eq y1 y2 y3 y4 hy1 hy2 hy3 hy4, pad2_eq m1 m2 hm1 hm2,
          pad2_eq d1 d2 hd1 hd2]
        rfl
      next => exact absurd h (by simp)
    next => exact absurd h (by simp)
  next => exact absurd h (by simp)

/-- A rate payload as returned by the provider: `{base, date, rates}`. -/
structure RPayload where
  base : String
  date : String
  rates : Dict
deriving DecidableEq, Repr

/-- `parse_response(r)`.  The Python function aliases the rates dict of the
payload (`flattened = r['rates']`), assigns the base currency to `1.0` and
the reformatted date into it in place, and returns it; the model returns the
pair (payload after the call, returned flattened dict), and `none` for the
ValueError strptime raises on a malformed date string. -/
def parse_response (r : RPayload) : Option (RPayload × Dict) :=
  let f1 := dset r.rates r.base (.num 1)
  match strptimeD r.date with
  | none => none
  | some t =>
    let f2 := dset f1 "date" (.str (strftimeTS t))
    some ({ r with rates := f2 }, f2)

theorem parse_response_eq (r : RPayload) (p : RPayload) (fl : Dict)
    (h : parse_response r = some (p, fl)) :
    ∃ t, strptimeD r.date = some t ∧
      fl = dset (dset r.rates r.base (.num 1)) "date" (.str (strftimeTS t)) ∧
      p = { r with rates := fl } := by
  unfold parse_response at h
  cases hm : strptimeD r.date with
  | none => rw [hm] at h; exact absurd h (by simp)
  | some t =>
    rw [hm] at h
    simp only [Option.some.injEq, Prod.mk.injEq] at h
    exact ⟨t, rfl, h.2.symm, by rw [← h.1, ← h.2]⟩

/-- C9: for every fetched rate payload (valid canonical date, dict-unique
rate keys, base a currency code and hence not the literal key `date`), the
typed-mode flattening contains every key of `rates`, plus the base currency
mapped to `1.0`, plus a `date` key holding the payload date reformatted as
the ISO-8601 timestamp with time-of-day always zero; each key is present
exactly once and nothing else is present; values of other rate keys are
preserved. -/
theorem C9_flattened_record_shape (r : RPayload) (p : RPayload) (fl : Dict)
    (hnodup : (dkeys r.rates).Nodup) (hbase : r.base ≠ "date")
    (h : parse_response r = some (p, fl)) :
    (∀ k, k ∈ dkeys fl ↔ k ∈ dkeys r.rates ∨ k = r.base ∨ k = "date")
    ∧ (dkeys fl).Nodup
    ∧ dget fl r.base = some (JVal.num 1)
    ∧ dget fl "date" = some (JVal.str (r.date ++ "T00:00:00Z"))
    ∧ (∀ k, k ∈ dkeys r.rates → k ≠ r.base → k ≠ "date" →
        dget fl k = dget r.rates k) := by
  obtain ⟨t, ht, hfl, hp⟩ := parse_response_eq r p fl h
  have hts : strftimeTS t = r.date ++ "T00:00:00Z" :=
    strftime_strptime_roundtrip r.date t ht
  subst hfl
  refine ⟨?_, ?_, ?_, ?_, ?_⟩
  · intro k
    rw [mem_dkeys_dset, mem_dkeys_dset]
    tauto
  · exact dkeys_dset_nodup _ _ _ (dkeys_dset_nodup _ _ _ hnodup)
  · rw [dget_dset_ne _ _ _ _ hbase, dget_dset_self]
  · rw [dget_dset_self, hts]
  · intro k hk hkb hkd
    rw [dget_dset_ne _ _ _ _ hkd, dget_dset_ne _ _ _ _ hkb]

/-- Witness for C9 at the concrete payload
`{base: USD, date: 2024-01-01, rates: {EUR: 0.9}}`. -/
theorem C9_flattened_record_shape_witness :
    (∀ k, k ∈ dkeys [("EUR", JVal.num (9/10)), ("USD", JVal.num 1),
        ("date", JVal.str "2024-01-01T00:00:00Z")] ↔
      k ∈ dkeys [("EUR", JVal.num (9/10))] ∨ k = "USD" ∨ k = "date")
    ∧ (dkeys [("EUR", JVal.num (9/10)), ("USD", JVal.num 1),
        ("date", JVal.str "2024-01-01T00:00:00Z")]).Nodup
    ∧ dget [("EUR", JVal.num (9/10)), ("USD", JVal.num 1),
        ("date", JVal.str "2024-01-01T00:00:00Z")] "USD" = some (JVal.num 1)
    ∧ dget [("EUR", JVal.num (9/10)), ("USD", JVal.num 1),
        ("date", JVal.str "2024-01-01T00:00:00Z")] "date" =
          some (JVal.str ("2024-01-01" ++ "T00:00:00Z"))
    ∧ (∀ k, k ∈ dkeys [("EUR", JVal.num (9/10))] → k ≠ "USD" → k ≠ "date" →
        dget [("EUR", JVal.num (9/10)), ("USD", JVal.num 1),
          ("date", JVal.str "2024-01-01T00:00:00Z")] k =
        dget [("EUR", JVal.num (9/10))] k) :=
  C9_flattened_record_shape ⟨"USD", "2024-01-01", [("EUR", JVal.num (9/10))]⟩
    ⟨"USD", "2024-01-01", [("EUR", JVal.num (9/10)), ("USD", JVal.num 1),
      ("date", JVal.str "2024-01-01T00:00:00Z")]⟩
    [("EUR", JVal.num (9/10)), ("USD", JVal.num 1),
      ("date", JVal.str "2024-01-01T00:00:00Z")]
    (by decide) (by decide) rfl

/-- C10: `parse_response` aliases and mutates its input: the payload after
the call carries the returned flattened dict as its own rates dict; any
provider-supplied value already stored under the base currency key or under
a `date` key is silently overwritten; whenever the flattened dict differs
from the original rates dict, the input payload has been modified by the
call. -/
theorem C10_parse_response_mutates_input (r : RPayload) (p : RPayload) (fl : Dict)
    (h : parse_response r = some (p, fl)) :
    p.rates = fl
    ∧ p.base = r.base ∧ p.date = r.date
    ∧ (r.base ≠ "date" → dget fl r.base = some (JVal.num 1))
    ∧ dget fl "date" = some (JVal.str (r.date ++ "T00:00:00Z"))
    ∧ (fl ≠ r.rates → p ≠ r) := by
  obtain ⟨t, ht, hfl, hp⟩ := parse_response_eq r p fl h
  have hts : strftimeTS t = r.date ++ "T00:00:00Z" :=
    strftime_strptime_roundtrip r.date t ht
  subst hp
  refine ⟨rfl, rfl, rfl, ?_, ?_, ?_⟩
  · intro hbase
    rw [hfl, dget_dset_ne _ _ _ _ hbase, dget_dset_self]
  · rw [hfl, dget_dset_self, hts]
  · intro hne heq
    exact hne (congrArg RPayload.rates heq)

/-- Witness for C10 at a payload whose rates dict already holds a value for
the base currency (`USD: 2`) and for the key `date` (`7`): both are
overwritten and the payload itself is changed by the call. -/
theorem C10_parse_response_mutates_input_witness :
    dget [("USD", JVal.num 1), ("date", JVal.str "2024-01-01T00:00:00Z")] "USD" =
        some (JVal.num 1)
    ∧ (⟨"USD", "2024-01-01",
         [("USD", JVal.num 1), ("date", JVal.str "2024-01-01T00:00:00Z")]⟩ : RPayload)
      ≠ ⟨"USD", "2024-01-01", [("USD", JVal.num 2), ("date", JVal.num 7)]⟩ := by
  have h := C10_parse_response_mutates_input
    ⟨"USD", "2024-01-01", [("USD", JVal.num 2), ("date", JVal.num 7)]⟩
    ⟨"USD", "2024-01-01",
      [("USD", JVal.num 1), ("date", JVal.str "2024-01-01T00:00:00Z")]⟩
    [("USD", JVal.num 1), ("date", JVal.str "2024-01-01T00:00:00Z")]
    rfl
  exact ⟨h.2.2.2.1 (by decide), h.2.2.2.2.2 (by decide)⟩

/-- An HTTP response as seen by the error handler: status code and body. -/
structure Resp where
  status : Nat
  body : String
deriving DecidableEq, Repr

/-- A `requests.exceptions.RequestException`: for an `HTTPError` raised by
`raise_for_status` the `response` attribute holds the response; for a
transport-level failure (connection error, timeout) it is `None`. -/
structure ReqError where
  response : Option Resp
deriving DecidableEq, Repr

/-- The `giveup` predicate handed to `backoff.on_exception`.  It first logs
`error.response.text` and then tests `error.response.status_code`; both
dereference `error.response`, so when `response` is `None` (network
failure) the function itself raises `AttributeError` — modelled as `none`.
Otherwise it gives up exactly when the status is neither 429 nor >= 500. -/
def giveup (error : ReqError) : Option Bool :=
  match error.response with
  | none => none
  | some response => some (!(response.status == 429 || 500 ≤ response.status))

/-- Outcome of the decorated `request` call: a successful response, a
propagated `RequestException`, or an `AttributeError` escaping from
`giveup` itself.  `attempts` counts the HTTP calls made and `waits` lists
the computed backoff sleeps, in order. -/
inductive ReqOutcome where
  | success (r : Resp) (attempts : Nat) (waits : List ℚ)
  | failure (e : ReqError) (attempts : Nat) (waits : List ℚ)
  | attrError (attempts : Nat)
deriving DecidableEq, Repr

/-- The retry driver of `backoff.on_exception(backoff.constant,
RequestException, jitter=backoff.random_jitter, max_tries=5, giveup=giveup,
interval=30)`: attempt the call; on a `RequestException` evaluate `giveup`
(which may itself raise), stop when it says to give up or when the retry
budget `left` is exhausted, and otherwise sleep `interval + jitter` and
retry.  `attempt i` is the oracle giving the result of HTTP call number i,
`jit i` the random jitter draw added to the constant interval before call
number i + 1, and `ws` accumulates the computed sleeps. -/
def backoffGo (attempt : Nat → Except ReqError Resp) (jit : Nat → ℚ) :
    Nat → Nat → List ℚ → ReqOutcome
  | left, i, ws =>
    match attempt i with
    | .ok r => .success r (i + 1) ws
    | .error e =>
      match giveup e with
      | none => .attrError (i + 1)
      | some g =>
        match left with
        | 0 => .failure e (i + 1) ws
        | left' + 1 =>
          if g then .failure e (i + 1) ws
          else backoffGo attempt jit left' (i + 1) (ws ++ [30 + jit i])

/-- The decorated `request` function: 5 total attempts at most, i.e. one
initial call plus a budget of 4 retries. -/
def request (attempt : Nat → Except ReqError Resp) (jit : Nat → ℚ) : ReqOutcome :=
  backoffGo attempt jit 4 0 []

/-- C6: the retry policy on the code as written.  HTTP 429 and 5xx statuses
are retried with a constant 30-unit interval plus random jitter up to 5
total attempts (exhaustion propagates the error; a success on the fifth
attempt is returned), and any other HTTP status gives up on the first
attempt without retrying; but a network failure — a RequestException whose
`response` is `None` — is NOT retried: `giveup` dereferences
`error.response` and raises `AttributeError` on the very first attempt, so
the retryable-network-failure part of the claim fails on the code. -/
theorem C6_retry_policy (jit : Nat → ℚ) :
    request (fun _ => .error ⟨none⟩) jit = .attrError 1
    ∧ request (fun _ => .error ⟨some ⟨429, "rate limited"⟩⟩) jit =
        .failure ⟨some ⟨429, "rate limited"⟩⟩ 5
          [30 + jit 0, 30 + jit 1, 30 + jit 2, 30 + jit 3]
    ∧ request (fun i => if i < 4 then .error ⟨some ⟨503, "unavailable"⟩⟩
          else .ok ⟨200, "ok"⟩) jit =
        .success ⟨200, "ok"⟩ 5 [30 + jit 0, 30 + jit 1, 30 + jit 2, 30 + jit 3]
    ∧ request (fun _ => .error ⟨some ⟨403, "forbidden"⟩⟩) jit =
        .failure ⟨some ⟨403, "forbidden"⟩⟩ 1 [] :=
  ⟨rfl, rfl, rfl, rfl⟩

/-- Declared property types occurring in the record schema. -/
inductive PropTy where
  | dateTime
  | nullNumber
deriving DecidableEq, Repr

/-- The evolving record schema, reduced to its ordered property list (the
enclosing `type: object` wrapper is constant). -/
structure Schema where
  props : List (String × PropTy)
deriving DecidableEq, Repr

/-- The module-level initial schema: only the `date` property, a date-time
formatted string. -/
def schema0 : Schema := ⟨[("date", .dateTime)]⟩

/-- Membership test `rate in schema['properties']`. -/
def Schema.hasProp (s : Schema) (c : String) : Bool :=
  decide (c ∈ s.props.map Prod.fst)

/-- The schema update loop of `do_sync`: for each rate code, in payload key
order, add a `[null, number]` typed property unless it already exists. -/
def updateSchema (s : Schema) (codes : List String) : Schema :=
  codes.foldl
    (fun s c => if s.hasProp c then s else ⟨s.props ++ [(c, .nullNumber)]⟩) s

/-- A provider payload as consumed by the sync loop, with its date as a day
number: the loop compares the payload date string against the walked date
string, and canonical `YYYY-MM-DD` strings are in bijection with day
numbers. -/
structure Payload where
  base : String
  date : Nat
  rates : Dict
deriving DecidableEq, Repr

/-- A configured exchange spec `{base, symbols}`. -/
structure Exchange where
  base : String
  symbols : List String
deriving DecidableEq, Repr

/-- A downstream Singer message: schema write, record write (raw payload in
schemaless mode, flattened payload in typed mode) or state write. -/
inductive Msg where
  | schemaMsg (s : Schema)
  | recordRaw (p : Payload)
  | recordFlat (p : Payload)
  | stateMsg (d : Nat)
deriving DecidableEq, Repr

def isSchemaMsg : Msg → Bool
  | .schemaMsg _ => true
  | _ => false

def isRecordMsg : Msg → Bool
  | .recordRaw _ => true
  | .recordFlat _ => true
  | _ => false

def isStateMsg : Msg → Bool
  | .stateMsg _ => true
  | _ => false

/-- The loop-carried schema state: the evolving `schema` object and
`prev_schema`, the deep copy taken at the end of the previous date; `none`
models its initial value `{}`, the empty dict, which differs from every
real schema object. -/
structure DState where
  sch : Schema
  prev : Option Schema
deriving DecidableEq, Repr

/-- The body of `for exchange in exchanges` after a successful fetch of
payload `p` while walking date `d`: update the schema with the payload rate
codes, write the schema when it differs from `prev_schema`, then write one
record only when the payload date equals the walked date. -/
def stepExchange (schemaless : Bool) (d : Nat) (st : DState) (p : Payload) :
    DState × List Msg :=
  let sch' := updateSchema st.sch (dkeys p.rates)
  (⟨sch', st.prev⟩,
    (if some sch' ≠ st.prev then [Msg.schemaMsg sch'] else []) ++
    (if p.date = d then
      [if schemaless then Msg.recordRaw p else Msg.recordFlat p] else []))

/-- The inner exchange loop: exchanges processed in order; a fetch failure
(`none`, a RequestException surviving the retry policy) aborts the date and
the run. -/
def runExchanges (schemaless : Bool) (fetch : Nat → Exchange → Option Payload)
    (d : Nat) : List Exchange → DState → DState × List Msg × Bool
  | [], st => (st, [], true)
  | ex :: rest, st =>
    match fetch d ex with
    | none => (st, [], false)
    | some p =>
      let step := stepExchange schemaless d st p
      let out := runExchanges schemaless fetch d rest step.1
      (out.1, step.2 ++ out.2.1, out.2.2)

/-- Output of a sync run: the ordered downstream messages, the trace of
dates whose iteration began, in order, and whether the run exited normally
(`false` models `sys.exit(-1)` on the fatal path). -/
structure SyncOut where
  msgs : List Msg
  dates : List Nat
  exitOk : Bool
deriving DecidableEq, Repr

/-- The `while strptime(next_date) <= utcnow()` loop of `do_sync`, driven by
the fuel `today + 1 - next`: each iteration advances `next_date` one day,
and the loop condition fails exactly when `next > today`, i.e. when the
fuel is zero (the upper bound is modelled by a fixed clock).  `ckpt` is the
in-memory `state['start_date']` value: it is reassigned to the walked date
only after every exchange of that date completed, `prev_schema` becomes a
deep copy of the schema at the same moment, and the state is written
downstream exactly once, when the loop ends normally or fatally. -/
def syncGo (fetch : Nat → Exchange → Option Payload) (today : Nat)
    (schemaless : Bool) (exs : List Exchange) :
    Nat → Nat → DState → Nat → SyncOut
  | 0, _, _, ckpt => ⟨[Msg.stateMsg ckpt], [], true⟩
  | fuel + 1, next, st, ckpt =>
    if next ≤ today then
      match runExchanges schemaless fetch next exs st with
      | (st', msgs, true) =>
        let out := syncGo fetch today schemaless exs fuel (next + 1)
          ⟨st'.sch, some st'.sch⟩ next
        ⟨msgs ++ out.msgs, next :: out.dates, out.exitOk⟩
      | (_, msgs, false) => ⟨msgs ++ [Msg.stateMsg ckpt], [next], false⟩
    else ⟨[Msg.stateMsg ckpt], [], true⟩

/-- The static configuration consumed by `do_sync` and `main`. -/
structure Config where
  apikey : String
  exchanges : List Exchange
  start_date : Nat
  schemaless : Bool
deriving DecidableEq, Repr

/-- `do_sync(config, start_date)`: run the date walking loop from
`start_date` with the module-level initial schema, `prev_schema = {}` and
`state = {start_date: start_date}`. -/
def do_sync (fetch : Nat → Exchange → Option Payload) (today : Nat)
    (config : Config) (start_date : Nat) : SyncOut :=
  syncGo fetch today config.schemaless config.exchanges
    (today + 1 - start_date) start_date ⟨schema0, none⟩ start_date

/-- Parsed command-line arguments: the config and the input checkpoint
state dict supplied by the loader (empty when no state was given). -/
structure Args where
  config : Config
  state : List (String × Nat)
deriving DecidableEq, Repr

/-- Result of a `main` invocation: either a sync was performed from some
start date, or `main` returned without syncing. -/
inductive MainResult where
  | noSync
  | synced (start : Nat) (out : SyncOut)
deriving DecidableEq, Repr

/-- `main()`: when `args.state` is truthy (non-empty) the code merges it
into the local `state` dict and falls through to the end of the function;
only in the `else` branch does it resolve the start date — from the local
`state`, which is still empty, so always from the config — and call
`do_sync`. -/
def main (fetch : Nat → Exchange → Option Payload) (today : Nat)
    (args : Args) : MainResult :=
  if args.state.isEmpty then
    .synced args.config.start_date
      (do_sync fetch today args.config args.config.start_date)
  else .noSync

theorem updateSchema_exists_append :
    ∀ (cs : List String) (s : Schema),
      ∃ t, (updateSchema s cs).props = s.props ++ t := by
  intro cs
  induction cs with
  | nil => exact fun s => ⟨[], by simp [updateSchema]⟩
  | cons c cs ih =>
    intro s
    show ∃ t, (updateSchema (if s.hasProp c then s
      else ⟨s.props ++ [(c, .nullNumber)]⟩) cs).props = s.props ++ t
    by_cases h : s.hasProp c
    · simpa [h] using ih s
    · obtain ⟨t, ht⟩ := ih ⟨s.props ++ [(c, .nullNumber)]⟩
      exact ⟨(c, .nullNumber) :: t, by simp [h, ht]⟩

theorem updateSchema_eq_iff (s : Schema) (cs : List String) :
    updateSchema s cs = s ↔ ∀ c ∈ cs, s.hasProp c = true := by
  constructor
  · induction cs generalizing s with
    | nil => intro _ c hc; exact absurd hc (by simp)
    | cons c cs ih =>
      intro h c' hc'
      have hstep : updateSchema (if s.hasProp c then s
          else ⟨s.props ++ [(c, .nullNumber)]⟩) cs = s := h
      by_cases hp : s.hasProp c
      · rw [if_pos hp] at hstep
        rcases List.mem_cons.mp hc' with rfl | hmem
        · exact hp
        · exact ih s hstep c' hmem
      · rw [if_neg hp] at hstep
        obtain ⟨t, ht⟩ := updateSchema_exists_append cs ⟨s.props ++ [(c, .nullNumber)]⟩
        rw [hstep] at ht
        have : s.props.length = s.props.length + 1 + t.length := by
          calc s.props.length = (s.props ++ [(c, PropTy.nullNumber)] ++ t).length := by
                rw [← ht]
            _ = s.props.length + 1 + t.length := by simp; omega
        omega
  · induction cs generalizing s with
    | nil => intro _; rfl
    | cons c cs ih =>
      intro h
      have hp : s.hasProp c = true := h c (by simp)
      show updateSchema (if s.hasProp c then s
        else ⟨s.props ++ [(c, .nullNumber)]⟩) cs = s
      rw [if_pos hp]
      exact ih s (fun c' hc' => h c' (by simp [hc']))

theorem stepExchange_countP_state (sl : Bool) (d : Nat) (st : DState) (p : Payload) :
    ((stepExchange sl d st p).2.countP isStateMsg) = 0 := by
  simp only [stepExchange, List.countP_append]
  split_ifs <;> simp [isStateMsg, List.countP_cons]

theorem stepExchange_countP_record (sl : Bool) (d : Nat) (st : DState) (p : Payload) :
    ((stepExchange sl d st p).2.countP isRecordMsg) =
      if p.date = d then 1 else 0 := by
  simp only [stepExchange, List.countP_append]
  split_ifs <;> simp_all [isRecordMsg, List.countP_cons]

theorem stepExchange_countP_schema (sl : Bool) (d : Nat) (st : DState) (p : Payload) :
    ((stepExchange sl d st p).2.countP isSchemaMsg) =
      if some (updateSchema st.sch (dkeys p.rates)) = st.prev then 0 else 1 := by
  simp only [stepExchange, List.countP_append]
  split_ifs <;> simp_all [isSchemaMsg, List.countP_cons]

theorem stepExchange_sch (sl : Bool) (d : Nat) (st : DState) (p : Payload) :
    (stepExchange sl d st p).1 = ⟨updateSchema st.sch (dkeys p.rates), st.prev⟩ := rfl

theorem runExchanges_ok (sl : Bool) (fetch : Nat → Exchange → Option Payload)
    (d : Nat) :
    ∀ (exs : List Exchange) (st : DState),
      (∀ ex ∈ exs, (fetch d ex).isSome = true) →
      (runExchanges sl fetch d exs st).2.2 = true := by
  intro exs
  induction exs with
  | nil => intro st _; rfl
  | cons ex rest ih =>
    intro st h
    obtain ⟨p, hp⟩ := Option.isSome_iff_exists.mp (h ex (by simp))
    simp only [runExchanges, hp]
    exact ih _ (fun e he => h e (by simp [he]))

theorem runExchanges_fails (sl : Bool) (fetch : Nat → Exchange → Option Payload)
    (d : Nat) :
    ∀ (exs : List Exchange) (st : DState),
      (∃ ex ∈ exs, fetch d ex = none) →
      (runExchanges sl fetch d exs st).2.2 = false := by
  intro exs
  induction exs with
  | nil => rintro st ⟨ex, hmem, _⟩; exact absurd hmem (by simp)
  | cons ex rest ih =>
    rintro st ⟨e, hmem, he⟩
    cases hf : fetch d ex with
    | none => simp [runExchanges, hf]
    | some p =>
      rcases List.mem_cons.mp hmem with rfl | hmem'
      · rw [hf] at he; exact absurd he (by simp)
      · simp only [runExchanges, hf]
        exact ih _ ⟨e, hmem', he⟩

theorem runExchanges_countP_state (sl : Bool)
    (fetch : Nat → Exchange → Option Payload) (d : Nat) :
    ∀ (exs : List Exchange) (st : DState),
      ((runExchanges sl fetch d exs st).2.1.countP isStateMsg) = 0 := by
  intro exs
  induction exs with
  | nil => intro st; rfl
  | cons ex rest ih =>
    intro st
    cases hf : fetch d ex with
    | none => simp [runExchanges, hf]
    | some p =>
      simp only [runExchanges, hf, List.countP_append]
      rw [stepExchange_countP_state, ih]

theorem syncGo_state_decomp (fetch : Nat → Exchange → Option Payload)
    (today : Nat) (sl : Bool) (exs : List Exchange) :
    ∀ (fuel next : Nat) (st : DState) (ckpt : Nat),
      ∃ pre d, (syncGo fetch today sl exs fuel next st ckpt).msgs =
          pre ++ [Msg.stateMsg d] ∧ pre.countP isStateMsg = 0 := by
  intro fuel
  induction fuel with
  | zero => intro next st ckpt; exact ⟨[], ckpt, rfl, rfl⟩
  | succ fuel ih =>
    intro next st ckpt
    by_cases h : next ≤ today
    · cases hr : runExchanges sl fetch next exs st with
      | mk st' rest =>
        obtain ⟨msgs, ok⟩ := rest
        have hmsgs : msgs.countP isStateMsg = 0 := by
          have := runExchanges_countP_state sl fetch next exs st
          rw [hr] at this
          simpa using this
        cases ok with
        | true =>
          obtain ⟨pre, d, hm, hc⟩ := ih (next + 1) ⟨st'.sch, some st'.sch⟩ next
          refine ⟨msgs ++ pre, d, ?_, ?_⟩
          · simp only [syncGo, h, if_true, hr, hm]
            simp
          · rw [List.countP_append, hc, hmsgs]
        | false =>
          refine ⟨msgs, ckpt, ?_, hmsgs⟩
          simp [syncGo, h, hr]
    · exact ⟨[], ckpt, by simp [syncGo, h], rfl⟩

theorem syncGo_dates (fetch : Nat → Exchange → Option Payload) (today : Nat)
    (sl : Bool) (exs : List Exchange)
    (h : ∀ (d : Nat), ∀ ex ∈ exs, (fetch d ex).isSome = true) :
    ∀ (fuel next : Nat) (st : DState) (ckpt : Nat), fuel = today + 1 - next →
      (syncGo fetch today sl exs fuel next st ckpt).dates =
        List.range' next fuel := by
  intro fuel
  induction fuel with
  | zero => intro next st ckpt _; rfl
  | succ fuel ih =>
    intro next st ckpt hf
    have hle : next ≤ today := by omega
    cases hr : runExchanges sl fetch next exs st with
    | mk st' rest =>
      obtain ⟨msgs, ok⟩ := rest
      have hok : ok = true := by
        have := runExchanges_ok sl fetch next exs st (h next)
        rw [hr] at this
        simpa using this
      subst hok
      simp only [syncGo, hle, if_true, hr]
      show next :: _ = List.range' next (fuel + 1)
      rw [show List.range' next (fuel + 1) = next :: List.range' (next + 1) fuel
        from rfl]
      rw [ih (next + 1) ⟨st'.sch, some st'.sch⟩ next (by omega)]

theorem syncGo_fatal (fetch : Nat → Exchange → Option Payload) (today : Nat)
    (sl : Bool) (exs : List Exchange) (D : Nat)
    (hD : ∃ ex ∈ exs, fetch D ex = none) (hDle : D ≤ today) :
    ∀ (fuel next : Nat) (st : DState) (ckpt : Nat),
      fuel = today + 1 - next → next ≤ D →
      (∀ d, next ≤ d → d < D → ∀ ex ∈ exs, (fetch d ex).isSome = true) →
      (syncGo fetch today sl exs fuel next st ckpt).exitOk = false
      ∧ (syncGo fetch today sl exs fuel next st ckpt).msgs.getLast? =
          some (Msg.stateMsg (if D = next then ckpt else D - 1)) := by
  intro fuel
  induction fuel with
  | zero => intro next st ckpt hf hnD _; omega
  | succ fuel ih =>
    intro next st ckpt hf hnD hsucc
    have hle : next ≤ today := le_trans hnD hDle
    by_cases hDn : D = next
    · subst hDn
      cases hr : runExchanges sl fetch D exs st with
      | mk st' rest =>
        obtain ⟨msgs, ok⟩ := rest
        have hok : ok = false := by
          have := runExchanges_fails sl fetch D exs st hD
          rw [hr] at this
          simpa using this
        subst hok
        constructor
        · simp [syncGo, hle, hr]
        · simp only [syncGo, hle, if_true, hr, if_pos rfl]
          exact List.getLast?_concat _
    · have hlt : next < D := lt_of_le_of_ne hnD (fun he => hDn he.symm)
      cases hr : runExchanges sl fetch next exs st with
      | mk st' rest =>
        obtain ⟨msgs, ok⟩ := rest
        have hok : ok = true := by
          have := runExchanges_ok sl fetch next exs st
            (fun ex hx => hsucc next le_rfl hlt ex hx)
          rw [hr] at this
          simpa using this
        subst hok
        obtain ⟨ihok, ihlast⟩ := ih (next + 1) ⟨st'.sch, some st'.sch⟩ next
          (by omega) hlt (fun d h1 h2 ex hx => hsucc d (by omega) h2 ex hx)
        have hlast' : (if D = next + 1 then next else D - 1) = D - 1 := by
          by_cases hD1 : D = next + 1
          · simp [hD1]
          · simp [hD1]
        rw [hlast'] at ihlast
        constructor
        · simp only [syncGo, hle, if_true, hr]
          exact ihok
        · simp only [syncGo, hle, if_true, hr]
          rw [if_neg hDn]
          obtain ⟨pre, dd, hm, _⟩ := syncGo_state_decomp fetch today sl exs fuel
            (next + 1) ⟨st'.sch, some st'.sch⟩ next
          show (msgs ++ _).getLast? = _
          rw [List.getLast?_append_of_ne_nil _ (by rw [hm]; simp)]
          exact ihlast

theorem syncGo_success_last (fetch : Nat → Exchange → Option Payload)
    (today : Nat) (sl : Bool) (exs : List Exchange)
    (h : ∀ (d : Nat), ∀ ex ∈ exs, (fetch d ex).isSome = true) :
    ∀ (fuel next : Nat) (st : DState) (ckpt : Nat), fuel = today + 1 - next →
      (syncGo fetch today sl exs fuel next st ckpt).msgs.getLast? =
        some (Msg.stateMsg (if next ≤ today then today else ckpt)) := by
  intro fuel
  induction fuel with
  | zero =>
    intro next st ckpt hf
    have hgt : ¬ next ≤ today := by omega
    simp [syncGo, hgt]
  | succ fuel ih =>
    intro next st ckpt hf
    have hle : next ≤ today := by omega
    cases hr : runExchanges sl fetch next exs st with
    | mk st' rest =>
      obtain ⟨msgs, ok⟩ := rest
      have hok : ok = true := by
        have := runExchanges_ok sl fetch next exs st (h next)
        rw [hr] at this
        simpa using this
      subst hok
      have ihlast := ih (next + 1) ⟨st'.sch, some st'.sch⟩ next (by omega)
      have hval : (if next + 1 ≤ today then today else next) = today := by
        by_cases h1 : next + 1 ≤ today
        · simp [h1]
        · have : next = today := by omega
          simp [h1, this]
      rw [hval] at ihlast
      simp only [syncGo, hle, if_true, hr]
      obtain ⟨pre, dd, hm, _⟩ := syncGo_state_decomp fetch today sl exs fuel
        (next + 1) ⟨st'.sch, some st'.sch⟩ next
      show (msgs ++ _).getLast? = _
      rw [List.getLast?_append_of_ne_nil _ (by rw [hm]; simp), ihlast]

theorem runExchanges_schema_inv (sl : Bool)
    (fetch : Nat → Exchange → Option Payload) (d : Nat) :
    ∀ (exs : List Exchange) (st : DState),
      (∃ t, st.sch.props = schema0.props ++ t) →
      ((∀ s, Msg.schemaMsg s ∈ (runExchanges sl fetch d exs st).2.1 →
          ∃ t, s.props = schema0.props ++ t)
       ∧ (∃ t, (runExchanges sl fetch d exs st).1.sch.props =
            schema0.props ++ t)) := by
  intro exs
  induction exs with
  | nil =>
    intro st hst
    exact ⟨fun s hs => absurd hs (by simp [runExchanges]), hst⟩
  | cons ex rest ih =>
    intro st hst
    cases hf : fetch d ex with
    | none =>
      refine ⟨fun s hs => absurd hs (by simp [runExchanges, hf]), ?_⟩
      simp only [runExchanges, hf]
      exact hst
    | some p =>
      have hstep : ∃ t, (stepExchange sl d st p).1.sch.props =
          schema0.props ++ t := by
        rw [stepExchange_sch]
        obtain ⟨t0, ht0⟩ := hst
        obtain ⟨t1, ht1⟩ := updateSchema_exists_append (dkeys p.rates) st.sch
        exact ⟨t0 ++ t1, by rw [ht1, ht0, List.append_assoc]⟩
      obtain ⟨ihmem, ihsch⟩ := ih (stepExchange sl d st p).1 hstep
      constructor
      · intro s hs
        simp only [runExchanges, hf, List.mem_append] at hs
        rcases hs with hs | hs
        · simp only [stepExchange, List.mem_append] at hs
          rcases hs with hs | hs
          · split at hs
            · rw [List.mem_singleton] at hs
              cases hs
              exact hstep
            · exact absurd hs (by simp)
          · split at hs
            · rw [List.mem_singleton] at hs
              split at hs <;> exact absurd hs (by simp)
            · exact absurd hs (by simp)
        · exact ihmem s hs
      · simp only [runExchanges, hf]
        exact ihsch

theorem syncGo_schema_inv (fetch : Nat → Exchange → Option Payload)
    (today : Nat) (sl : Bool) (exs : List Exchange) :
    ∀ (fuel next : Nat) (st : DState) (ckpt : Nat),
      (∃ t, st.sch.props = schema0.props ++ t) →
      ∀ s, Msg.schemaMsg s ∈ (syncGo fetch today sl exs fuel next st ckpt).msgs →
        ∃ t, s.props = schema0.props ++ t := by
  intro fuel
  induction fuel with
  | zero =>
    intro next st ckpt _ s hs
    exact absurd hs (by simp [syncGo])
  | succ fuel ih =>
    intro next st ckpt hst s hs
    by_cases h : next ≤ today
    · cases hr : runExchanges sl fetch next exs st with
      | mk st' rest =>
        obtain ⟨msgs, ok⟩ := rest
        obtain ⟨hmem, hsch⟩ := runExchanges_schema_inv sl fetch next exs st hst
        rw [hr] at hmem hsch
        cases ok with
        | true =>
          simp only [syncGo, h, if_true, hr, List.mem_append] at hs
          rcases hs with hs | hs
          · exact hmem s (by simpa using hs)
          · exact ih (next + 1) ⟨st'.sch, some st'.sch⟩ next hsch s hs
        | false =>
          simp only [syncGo, h, if_true, hr, List.mem_append] at hs
          rcases hs with hs | hs
          · exact hmem s (by simpa using hs)
          · exact absurd hs (by simp)
    · rw [show syncGo fetch today sl exs (fuel + 1) next st ckpt =
        ⟨[Msg.stateMsg ckpt], [], true⟩ by simp [syncGo, h]] at hs
      exact absurd hs (by simp)

theorem chain'_range'_consec :
    ∀ (n s : Nat), List.Chain' (fun a b => b = a + 1) (List.range' s n) := by
  intro n
  induction n with
  | zero => intro s; simp
  | succ n ih =>
    intro s
    rw [show List.range' s (n + 1) = s :: List.range' (s + 1) n from rfl,
      List.chain'_cons']
    refine ⟨?_, ih (s + 1)⟩
    intro y hy
    cases n with
    | zero => simp at hy
    | succ m =>
      rw [show List.range' (s + 1) (m + 1) = (s + 1) :: List.range' (s + 2) m
        from rfl] at hy
      simp at hy
      omega

/-- C1: resumability is broken in `main`.  When a non-empty checkpoint state
is supplied, the code merges it into the local `state` dict and then falls
through to the end of the function: `do_sync` is called only in the `else`
branch, so no sync runs at all — contradicting the claim that the sync runs
from the checkpointed start date. -/
theorem C1_main_no_sync_on_nonempty_state
    (fetch : Nat → Exchange → Option Payload) (today : Nat) (args : Args)
    (h : args.state ≠ []) : main fetch today args = .noSync := by
  unfold main
  rw [if_neg]
  simpa using h

/-- Witness for C1: a run given the checkpoint state `{start_date: 100}`
performs no sync. -/
theorem C1_main_no_sync_on_nonempty_state_witness :
    main (fun _ _ => none) 0
      ⟨⟨"key", [], 0, false⟩, [("start_date", 100)]⟩ = .noSync :=
  C1_main_no_sync_on_nonempty_state _ _ _ (by simp)

/-- C2 (amended): the `state` variable is reassigned in memory after each
completed date, but a STATE message is written downstream exactly once per
run, as its very last message, on the normal path and on the fatal path
alike, and it carries the last fully completed date — `today` when every
fetch succeeds and the loop ran, the date immediately before the failing
one on a fatal run, and the original start date when no date completed
(empty walk or first-date failure). -/
theorem C2_single_final_state_write
    (fetch : Nat → Exchange → Option Payload) (today : Nat) (config : Config)
    (start_date : Nat) :
    ((do_sync fetch today config start_date).msgs.countP isStateMsg = 1)
    ∧ (∃ d, (do_sync fetch today config start_date).msgs.getLast? =
        some (Msg.stateMsg d))
    ∧ ((∀ (d : Nat), ∀ ex ∈ config.exchanges, (fetch d ex).isSome = true) →
        (do_sync fetch today config start_date).msgs.getLast? =
          some (Msg.stateMsg
            (if start_date ≤ today then today else start_date)))
    ∧ (∀ D, start_date ≤ D → D ≤ today →
        (∀ d, start_date ≤ d → d < D →
          ∀ ex ∈ config.exchanges, (fetch d ex).isSome = true) →
        (∃ ex ∈ config.exchanges, fetch D ex = none) →
        (do_sync fetch today config start_date).msgs.getLast? =
          some (Msg.stateMsg
            (if D = start_date then start_date else D - 1))) := by
  refine ⟨?_, ?_, ?_, ?_⟩
  · obtain ⟨pre, d, hm, hc⟩ := syncGo_state_decomp fetch today
      config.schemaless config.exchanges (today + 1 - start_date) start_date
      ⟨schema0, none⟩ start_date
    unfold do_sync
    rw [hm, List.countP_append, hc]
    simp [isStateMsg, List.countP_cons]
  · obtain ⟨pre, d, hm, _⟩ := syncGo_state_decomp fetch today
      config.schemaless config.exchanges (today + 1 - start_date) start_date
      ⟨schema0, none⟩ start_date
    unfold do_sync
    rw [hm]
    exact ⟨d, List.getLast?_concat _⟩
  · intro h
    unfold do_sync
    exact syncGo_success_last fetch today config.schemaless config.exchanges h
      (today + 1 - start_date) start_date ⟨schema0, none⟩ start_date rfl
  · intro D hsD hDt hpre hfail
    unfold do_sync
    exact (syncGo_fatal fetch today config.schemaless config.exchanges D hfail
      hDt (today + 1 - start_date) start_date ⟨schema0, none⟩ start_date rfl
      hsD hpre).2

/-- Witness for C2: a fully successful run from start date 0 with today 1
ends with the single STATE message carrying 1, the last fully completed
date. -/
theorem C2_single_final_state_write_witness :
    (do_sync (fun d _ => some ⟨"USD", d, [("EUR", JVal.num 1)]⟩) 1
      ⟨"key", [⟨"USD", ["EUR"]⟩], 0, false⟩ 0).msgs.getLast? =
      some (Msg.stateMsg (if 0 ≤ 1 then 1 else 0)) :=
  (C2_single_final_state_write (fun d _ => some ⟨"USD", d, [("EUR", JVal.num 1)]⟩)
    1 ⟨"key", [⟨"USD", ["EUR"]⟩], 0, false⟩ 0).2.2.1 (fun _ _ _ => rfl)

/-- C2 counterexample: a successful run that processes the two dates 0 and 1
writes exactly one STATE message, not one per date plus a final one — the
claim requires at least three state writes for this run. -/
theorem C2_counterexample :
    (do_sync (fun d _ => some ⟨"USD", d, [("EUR", JVal.num 1)]⟩) 1
      ⟨"key", [⟨"USD", ["EUR"]⟩], 0, false⟩ 0).dates = [0, 1]
    ∧ (do_sync (fun d _ => some ⟨"USD", d, [("EUR", JVal.num 1)]⟩) 1
      ⟨"key", [⟨"USD", ["EUR"]⟩], 0, false⟩ 0).msgs.countP isStateMsg = 1 :=
  ⟨rfl, rfl⟩

/-- C3 (amended): when an unrecoverable fetch failure occurs while
processing date D after every earlier date completed fully, the run exits
fatally and the final STATE message carries the last fully completed date
(D - 1, the date immediately before D) — except when D is the very first
date of the run, in which case it carries the original start date, which is
D itself. -/
theorem C3_fatal_checkpoint
    (fetch : Nat → Exchange → Option Payload) (today : Nat) (config : Config)
    (start_date D : Nat) (hsD : start_date ≤ D) (hDt : D ≤ today)
    (hpre : ∀ d, start_date ≤ d → d < D →
      ∀ ex ∈ config.exchanges, (fetch d ex).isSome = true)
    (hfail : ∃ ex ∈ config.exchanges, fetch D ex = none) :
    (do_sync fetch today config start_date).exitOk = false
    ∧ (do_sync fetch today config start_date).msgs.getLast? =
        some (Msg.stateMsg (if D = start_date then start_date else D - 1)) := by
  unfold do_sync
  exact syncGo_fatal fetch today config.schemaless config.exchanges D hfail hDt
    (today + 1 - start_date) start_date ⟨schema0, none⟩ start_date rfl hsD hpre

/-- Witness for C3: dates 0 and 1 complete, date 2 fails; the final state
message carries 1 = 2 - 1 and the run exits fatally. -/
theorem C3_fatal_checkpoint_witness :
    (do_sync (fun d _ => if d < 2 then some ⟨"USD", d, [("EUR", JVal.num 1)]⟩
        else none) 5 ⟨"key", [⟨"USD", ["EUR"]⟩], 0, false⟩ 0).exitOk = false
    ∧ (do_sync (fun d _ => if d < 2 then some ⟨"USD", d, [("EUR", JVal.num 1)]⟩
        else none) 5 ⟨"key", [⟨"USD", ["EUR"]⟩], 0, false⟩ 0).msgs.getLast? =
        some (Msg.stateMsg (if 2 = 0 then 0 else 2 - 1)) :=
  C3_fatal_checkpoint _ 5 _ 0 2 (by omega) (by omega)
    (fun d _ h2 ex _ => by simp [h2])
    ⟨⟨"USD", ["EUR"]⟩, by simp, by simp⟩

/-- C3 counterexample: a fatal failure on the very first date D = 5 of the
run (zero fully completed dates) writes the state `{start_date: 5}` — D
itself — while the claim requires a date strictly before D. -/
theorem C3_counterexample :
    do_sync (fun _ _ => none) 5 ⟨"key", [⟨"USD", ["EUR"]⟩], 5, false⟩ 5 =
      ⟨[Msg.stateMsg 5], [5], false⟩ := rfl

/-- C4 (amended): on each date/exchange iteration the schema is written iff
the schema after updating with the payload codes differs from `prev_schema`
— the deep-copied snapshot taken at the end of the previous date (the empty
dict before any date completed), NOT the last schema actually emitted.  At
the start of a later date, where `prev_schema` equals the current schema,
emission happens exactly when the payload introduces a new currency code;
with `prev_schema` still `{}` (anywhere in the first date) the schema is
always written.  Because the snapshot is refreshed only once per date, an
iteration that introduces no new code can still re-write the schema. -/
theorem C4_schema_emission_rule (sl : Bool) (d : Nat) (st : DState)
    (p : Payload) :
    ((stepExchange sl d st p).2.countP isSchemaMsg =
      if some (updateSchema st.sch (dkeys p.rates)) = st.prev then 0 else 1)
    ∧ (st.prev = some st.sch →
        ((stepExchange sl d st p).2.countP isSchemaMsg = 1 ↔
          ∃ c ∈ dkeys p.rates, st.sch.hasProp c = false))
    ∧ (st.prev = none →
        (stepExchange sl d st p).2.countP isSchemaMsg = 1) := by
  refine ⟨stepExchange_countP_schema sl d st p, ?_, ?_⟩
  · intro hprev
    rw [stepExchange_countP_schema, hprev]
    constructor
    · intro h1
      by_cases he : updateSchema st.sch (dkeys p.rates) = st.sch
      · rw [if_pos (by rw [he])] at h1
        exact absurd h1 (by simp)
      · have h2 : ¬ ∀ c ∈ dkeys p.rates, st.sch.hasProp c = true :=
          fun hall => he ((updateSchema_eq_iff _ _).mpr hall)
        push_neg at h2
        obtain ⟨c, hc, hcf⟩ := h2
        exact ⟨c, hc, by simpa using hcf⟩
    · rintro ⟨c, hc, hcf⟩
      rw [if_neg]
      intro he
      have hall := (updateSchema_eq_iff st.sch (dkeys p.rates)).mp
        (Option.some_injective _ he)
      rw [hall c hc] at hcf
      exact absurd hcf (by simp)
  · intro hprev
    rw [stepExchange_countP_schema, hprev, if_neg (by simp)]

/-- Witness for C4: at the start of a non-first date (snapshot equal to the
current schema), a payload introducing the new code EUR makes the iteration
write the schema. -/
theorem C4_schema_emission_rule_witness :
    (stepExchange false 3 ⟨schema0, some schema0⟩
      ⟨"USD", 3, [("EUR", JVal.num 1)]⟩).2.countP isSchemaMsg = 1 :=
  ((C4_schema_emission_rule false 3 ⟨schema0, some schema0⟩
    ⟨"USD", 3, [("EUR", JVal.num 1)]⟩).2.1 rfl).mpr
    ⟨"EUR", by decide, by decide⟩

/-- C4 counterexample: with two exchanges on a single date, both returning
only the code EUR, the identical schema object is written twice — the
second date/exchange iteration introduces no code that was not already in
the schema when it was last emitted, yet re-emits it, because the code
compares against the per-date snapshot `prev_schema` (still `{}`), not
against the last emitted schema. -/
theorem C4_counterexample :
    (do_sync (fun d _ => some ⟨"USD", d, [("EUR", JVal.num 1)]⟩) 0
      ⟨"key", [⟨"USD", ["EUR"]⟩, ⟨"GBP", ["EUR"]⟩], 0, false⟩ 0).msgs.count
        (Msg.schemaMsg ⟨[("date", PropTy.dateTime),
          ("EUR", PropTy.nullNumber)]⟩) = 2 := rfl

/-- C5 (amended): a payload whose date differs from the walked date yields
no RECORD message and raises no error — the exchange loop continues and
succeeds whenever every fetch succeeds — but the payload rate codes still
update the schema, because the schema update precedes the date-match guard;
a mismatched payload can therefore cause a schema change. -/
theorem C5_mismatch_guard (sl : Bool) (fetch : Nat → Exchange → Option Payload)
    (d : Nat) (st : DState) (p : Payload) (hmis : p.date ≠ d) :
    ((stepExchange sl d st p).2.countP isRecordMsg = 0)
    ∧ ((stepExchange sl d st p).1.sch = updateSchema st.sch (dkeys p.rates))
    ∧ (∀ (exs : List Exchange) (st' : DState),
        (∀ ex ∈ exs, (fetch d ex).isSome = true) →
        (runExchanges sl fetch d exs st').2.2 = true) := by
  refine ⟨?_, rfl, fun exs st' h => runExchanges_ok sl fetch d exs st' h⟩
  rw [stepExchange_countP_record, if_neg hmis]

/-- Witness for C5: a payload dated 1 processed while walking date 0 emits
no record. -/
theorem C5_mismatch_guard_witness :
    (stepExchange false 0 ⟨schema0, none⟩
      ⟨"USD", 1, [("EUR", JVal.num 1)]⟩).2.countP isRecordMsg = 0 :=
  (C5_mismatch_guard false (fun _ _ => none) 0 ⟨schema0, none⟩
    ⟨"USD", 1, [("EUR", JVal.num 1)]⟩ (by decide)).1

/-- C5 counterexample: the provider returns a payload dated 1 while date 0
is walked; no record is emitted and the run continues normally, but the
schema gains the EUR property from the mismatched payload and a schema
message listing EUR is written — the payload does cause a schema change,
contrary to the claim. -/
theorem C5_counterexample :
    do_sync (fun _ _ => some ⟨"USD", 1, [("EUR", JVal.num 1)]⟩) 0
      ⟨"key", [⟨"USD", ["EUR"]⟩], 0, false⟩ 0 =
      ⟨[Msg.schemaMsg ⟨[("date", PropTy.dateTime), ("EUR", PropTy.nullNumber)]⟩,
        Msg.stateMsg 0], [0], true⟩ := rfl

/-- C7: when every fetch succeeds, the date walker enumerates exactly the
dates from the start date through today inclusive, in ascending order, one
day per iteration, each exactly once, with no gaps and no duplicates (the
clock is modelled as fixed for the run). -/
theorem C7_date_walker_enumeration (fetch : Nat → Exchange → Option Payload)
    (today : Nat) (config : Config) (start_date : Nat)
    (h : ∀ (d : Nat), ∀ ex ∈ config.exchanges, (fetch d ex).isSome = true) :
    ((do_sync fetch today config start_date).dates =
      List.range' start_date (today + 1 - start_date))
    ∧ (∀ D, D ∈ (do_sync fetch today config start_date).dates ↔
        start_date ≤ D ∧ D ≤ today)
    ∧ (∀ D, start_date ≤ D → D ≤ today →
        (do_sync fetch today config start_date).dates.count D = 1)
    ∧ (do_sync fetch today config start_date).dates.Pairwise (· < ·)
    ∧ List.Chain' (fun a b => b = a + 1)
        (do_sync fetch today config start_date).dates := by
  have hdates := syncGo_dates fetch today config.schemaless config.exchanges h
    (today + 1 - start_date) start_date ⟨schema0, none⟩ start_date rfl
  unfold do_sync
  rw [hdates]
  refine ⟨rfl, ?_, ?_, ?_, ?_⟩
  · intro D
    rw [List.mem_range'_1]
    omega
  · intro D h1 h2
    exact List.count_eq_one_of_mem (List.nodup_range' _ _)
      (List.mem_range'_1.mpr (by omega))
  · exact List.pairwise_lt_range' _ _
  · exact chain'_range'_consec _ _

/-- Witness for C7: with a total fetch oracle, a run configured with start
date 3 and today 5 walks exactly the dates 3, 4, 5. -/
theorem C7_date_walker_enumeration_witness :
    (do_sync (fun d _ => some ⟨"USD", d, [("EUR", JVal.num 1)]⟩) 5
      ⟨"key", [⟨"USD", ["EUR"]⟩], 3, false⟩ 3).dates =
      List.range' 3 (5 + 1 - 3) :=
  (C7_date_walker_enumeration (fun d _ => some ⟨"USD", d, [("EUR", JVal.num 1)]⟩)
    5 ⟨"key", [⟨"USD", ["EUR"]⟩], 3, false⟩ 3 (fun _ _ _ => rfl)).1

/-- C8: schema monotonicity — updating the schema with any observed codes
only appends properties (never removes one, never changes the type of an
existing one), and in any run every schema object actually emitted extends
the initial schema, which has only the date property, by appended currency
properties. -/
theorem C8_schema_monotonicity (fetch : Nat → Exchange → Option Payload)
    (today : Nat) (config : Config) (start_date : Nat) :
    (∀ (s : Schema) (cs : List String),
      ∃ t, (updateSchema s cs).props = s.props ++ t)
    ∧ (∀ (s : Schema) (cs : List String) (c : String) (ty : PropTy),
        (c, ty) ∈ s.props → (c, ty) ∈ (updateSchema s cs).props)
    ∧ (∀ s, Msg.schemaMsg s ∈ (do_sync fetch today config start_date).msgs →
        ∃ t, s.props = schema0.props ++ t) := by
  refine ⟨fun s cs => updateSchema_exists_append cs s, ?_, ?_⟩
  · intro s cs c ty hmem
    obtain ⟨t, ht⟩ := updateSchema_exists_append cs s
    rw [ht, List.mem_append]
    exact Or.inl hmem
  · intro s hs
    exact syncGo_schema_inv fetch today config.schemaless config.exchanges
      (today + 1 - start_date) start_date ⟨schema0, none⟩ start_date
      ⟨[], by simp⟩ s hs

/-- Witness for C8: the schema emitted in a concrete run extends the
initial date-only schema by an appended EUR property. -/
theorem C8_schema_monotonicity_witness :
    ∃ t, ([("date", PropTy.dateTime), ("EUR", PropTy.nullNumber)] :
      List (String × PropTy)) = schema0.props ++ t :=
  (C8_schema_monotonicity (fun d _ => some ⟨"USD", d, [("EUR", JVal.num 1)]⟩) 0
    ⟨"key", [⟨"USD", ["EUR"]⟩], 0, false⟩ 0).2.2
    ⟨[("date", PropTy.dateTime), ("EUR", PropTy.nullNumber)]⟩ (by decide)

end TapER
